import Mathlib

set_option maxHeartbeats 1000000

/-!
Verification development for the atom-ide-ui diagnostics aggregation store,
diagnostic updater, fix applicator, definition cache and definition-provider
selection.  The diagnostics store, updater and fix applicator are modelled
from the written specification (their reducer/selector sources are not part
of the source tree; the behaviour is pinned down by `createStore-spec.js`).
The definition cache is embedded from
`atom-ide-definitions/lib/DefinitionCache.js`.
-/

/-- Modelled from the spec: the scope of a diagnostic message, `file` or
`project` (the `scope` field of `DiagnosticMessage` in
`atom-ide-diagnostics/lib/types.js`, which is not in the source tree). -/
inductive MessageScope where
  | file
  | project
deriving DecidableEq, Repr

/-- A text range `((startRow, startCol), (endRow, endCol))`. -/
abbrev TextRange := (Nat × Nat) × (Nat × Nat)

/-- Modelled from the spec: a fix attached to a message, a range to replace
together with the replacement text. -/
structure MessageFix where
  oldRange : TextRange
  newText : String
deriving DecidableEq, Repr

/-- Modelled from the spec: `DiagnosticMessage` of
`atom-ide-diagnostics/lib/types.js` (not in the source tree): provider name,
scope, severity type, optional file path, optional range and optional fix. -/
structure DiagnosticMessage where
  providerName : String
  scope : MessageScope
  type : String
  filePath : Option String
  range : Option TextRange
  fix : Option MessageFix
deriving DecidableEq, Repr

/-- Modelled from the spec: `ProviderMessageSet`, the most recent full
replacement set of messages a single provider has asserted: a map from file
path to the ordered message list, plus the project-scope messages. -/
structure ProviderMessageSet where
  filePathToMessages : List (String × List DiagnosticMessage)
  projectMessages : List DiagnosticMessage
deriving DecidableEq, Repr

/-- The empty provider message set. -/
def ProviderMessageSet.empty : ProviderMessageSet := ⟨[], []⟩

/-- Provider identity, an opaque key as prescribed by the spec's design
notes. -/
abbrev ProviderKey := Nat

/-- Modelled from the spec: `StoreState`, the mapping from provider to its
`ProviderMessageSet` (keys unique per provider in reachable states). -/
structure StoreState where
  messages : List (ProviderKey × ProviderMessageSet)
deriving DecidableEq, Repr

/-- The initial, empty store state. -/
def StoreState.empty : StoreState := ⟨[]⟩

/-- Modelled from the spec: the payload of `updateMessages` — a map from
file path to the new ordered message list, and an optional full replacement
of the provider's project-scope messages (`none` models an update whose
`projectMessages` field is absent). -/
structure MessageUpdate where
  filePathToMessages : List (String × List DiagnosticMessage)
  projectMessages : Option (List DiagnosticMessage)
deriving DecidableEq, Repr

/-- Modelled from the spec: the three invalidation payloads of
`invalidateMessages` as a tagged variant. -/
inductive Invalidation where
  | file (filePaths : List String)
  | project
  | all
deriving DecidableEq, Repr

/-- Look up the message list stored for file path `f` in a path map; empty
when the path is absent. -/
def lookupPath (m : List (String × List DiagnosticMessage)) (f : String) :
    List DiagnosticMessage :=
  match m with
  | [] => []
  | e :: rest => if e.1 = f then e.2 else lookupPath rest f

/-- Replace the entry for path `f` by the list `l`, inserting it when
absent. -/
def setPath (m : List (String × List DiagnosticMessage)) (f : String)
    (l : List DiagnosticMessage) : List (String × List DiagnosticMessage) :=
  match m with
  | [] => [(f, l)]
  | e :: rest => if e.1 = f then (f, l) :: setPath rest f l else e :: setPath rest f l

/-- Delete the entries for the given paths from a path map. -/
def removePaths (m : List (String × List DiagnosticMessage))
    (paths : List String) : List (String × List DiagnosticMessage) :=
  m.filter (fun e => decide (e.1 ∉ paths))

/-- Whether the store currently knows the provider `p`. -/
def StoreState.hasProvider (s : StoreState) (p : ProviderKey) : Bool :=
  s.messages.any (fun e => decide (e.1 = p))

/-- Modelled from the spec: how one `updateMessages` payload transforms a
provider's message set — each path present in the update replaces that
path's list, paths absent from the update are kept, and `projectMessages`,
when present, fully replaces the provider's project messages. -/
def applyUpdate (upd : MessageUpdate) (ms : ProviderMessageSet) :
    ProviderMessageSet where
  filePathToMessages :=
    upd.filePathToMessages.foldl (fun acc e => setPath acc e.1 e.2) ms.filePathToMessages
  projectMessages := upd.projectMessages.getD ms.projectMessages

/-- Modelled from the spec: `updateMessages(provider, update)` on the store
state — the provider's set is transformed by `applyUpdate`; an unknown
provider is added with the update applied to the empty set. -/
def updateMessages (p : ProviderKey) (upd : MessageUpdate) (s : StoreState) :
    StoreState :=
  if s.messages.any (fun e => decide (e.1 = p)) then
    ⟨s.messages.map (fun e => if e.1 = p then (p, applyUpdate upd e.2) else e)⟩
  else
    ⟨s.messages ++ [(p, applyUpdate upd ProviderMessageSet.empty)]⟩

/-- Modelled from the spec: how one invalidation payload transforms a
provider's message set. -/
def applyInvalidation (inv : Invalidation) (ms : ProviderMessageSet) :
    ProviderMessageSet :=
  match inv with
  | .file paths => { ms with filePathToMessages := removePaths ms.filePathToMessages paths }
  | .project => { ms with projectMessages := [] }
  | .all => ProviderMessageSet.empty

/-- Modelled from the spec: `invalidateMessages(provider, invalidation)` —
only the named provider's set is transformed; on a provider with no current
entries this is a no-op. -/
def invalidateMessages (p : ProviderKey) (inv : Invalidation) (s : StoreState) :
    StoreState :=
  ⟨s.messages.map (fun e => if e.1 = p then (p, applyInvalidation inv e.2) else e)⟩

/-- Modelled from the spec: `removeProvider(provider)` — deletes the
provider's key (and hence its entire `ProviderMessageSet`) from the store. -/
def removeProvider (p : ProviderKey) (s : StoreState) : StoreState :=
  ⟨s.messages.filter (fun e => decide (e.1 ≠ p))⟩

/-- Modelled from the spec: selector `getFileMessages(state, path)` — the
ordered union over providers of their messages at `path`. -/
def getFileMessages (s : StoreState) (f : String) : List DiagnosticMessage :=
  (s.messages.map (fun e => lookupPath e.2.filePathToMessages f)).flatten

/-- Modelled from the spec: selector `getProjectMessages(state)` — the union
over providers of their project-scope messages. -/
def getProjectMessages (s : StoreState) : List DiagnosticMessage :=
  (s.messages.map (fun e => e.2.projectMessages)).flatten

/-- All file-scope messages of one provider message set, across its paths. -/
def allPathMessages (ms : ProviderMessageSet) : List DiagnosticMessage :=
  (ms.filePathToMessages.map (fun e => e.2)).flatten

/-- Modelled from the spec: selector `getMessages(state)` — the union of
everything, file-scope and project-scope, over all providers. -/
def getMessages (s : StoreState) : List DiagnosticMessage :=
  (s.messages.map (fun e => allPathMessages e.2)).flatten ++ getProjectMessages s

/-- Look up a provider's message set in an association list; the empty set
when the provider is unknown. -/
def lookupProvider (l : List (ProviderKey × ProviderMessageSet))
    (p : ProviderKey) : ProviderMessageSet :=
  match l with
  | [] => ProviderMessageSet.empty
  | e :: rest => if e.1 = p then e.2 else lookupProvider rest p

/-- The message set the store currently holds for provider `p`. -/
def providerSet (s : StoreState) (p : ProviderKey) : ProviderMessageSet :=
  lookupProvider s.messages p

/-- Provider `p`'s contribution to `getFileMessages` at path `f`. -/
def providerFileMessages (s : StoreState) (p : ProviderKey) (f : String) :
    List DiagnosticMessage :=
  lookupPath (providerSet s p).filePathToMessages f

/-- Provider `p`'s contribution to `getProjectMessages`. -/
def providerProjectMessages (s : StoreState) (p : ProviderKey) :
    List DiagnosticMessage :=
  (providerSet s p).projectMessages

/-- Store well-formedness: each provider owns at most one entry. Reachable
states satisfy this (the spec's "keys unique per provider"). -/
def StoreWF (s : StoreState) : Prop :=
  (s.messages.map (fun e => e.1)).Nodup

/-! ### Association-list lemmas -/

theorem lookupPath_setPath_self (m : List (String × List DiagnosticMessage))
    (f : String) (l : List DiagnosticMessage) :
    lookupPath (setPath m f l) f = l := by
  induction m with
  | nil => simp [setPath, lookupPath]
  | cons e rest ih =>
    by_cases h : e.1 = f
    · simp [setPath, lookupPath, h]
    · simp [setPath, lookupPath, h, ih]

theorem lookupPath_setPath_ne (m : List (String × List DiagnosticMessage))
    (f g : String) (l : List DiagnosticMessage) (hgf : g ≠ f) :
    lookupPath (setPath m f l) g = lookupPath m g := by
  have hfg : f ≠ g := Ne.symm hgf
  induction m with
  | nil => simp [setPath, lookupPath, hfg]
  | cons e rest ih =>
    by_cases h : e.1 = f
    · have heg : e.1 ≠ g := by rw [h]; exact hfg
      simp [setPath, lookupPath, h, hfg, heg, ih]
    · by_cases h2 : e.1 = g
      · simp [setPath, lookupPath, h, h2, hgf]
      · simp [setPath, lookupPath, h, h2, ih]

theorem lookupPath_removePaths_mem (m : List (String × List DiagnosticMessage))
    (paths : List String) (g : String) (hg : g ∈ paths) :
    lookupPath (removePaths m paths) g = [] := by
  induction m with
  | nil => simp [removePaths, lookupPath]
  | cons e rest ih =>
    by_cases h : e.1 ∈ paths
    · simpa [removePaths, List.filter_cons, h] using ih
    · have hne : e.1 ≠ g := fun hh => h (by rw [hh]; exact hg)
      simpa [removePaths, List.filter_cons, h, lookupPath, hne] using ih

theorem lookupPath_removePaths_not_mem
    (m : List (String × List DiagnosticMessage))
    (paths : List String) (g : String) (hg : g ∉ paths) :
    lookupPath (removePaths m paths) g = lookupPath m g := by
  induction m with
  | nil => simp [removePaths, lookupPath]
  | cons e rest ih =>
    by_cases h : e.1 ∈ paths
    · have hne : e.1 ≠ g := fun hh => hg (by rw [← hh]; exact h)
      simpa [removePaths, List.filter_cons, h, lookupPath, hne] using ih
    · by_cases h2 : e.1 = g
      · simp [removePaths, List.filter_cons, h, lookupPath, h2, hg]
      · simpa [removePaths, List.filter_cons, h, lookupPath, h2] using ih

theorem lookupProvider_map_self (l : List (ProviderKey × ProviderMessageSet))
    (p : ProviderKey) (g : ProviderMessageSet → ProviderMessageSet)
    (h : l.any (fun e => decide (e.1 = p)) = true) :
    lookupProvider (l.map (fun e => if e.1 = p then (p, g e.2) else e)) p =
      g (lookupProvider l p) := by
  induction l with
  | nil => simp at h
  | cons e rest ih =>
    by_cases hp : e.1 = p
    · simp [lookupProvider, hp]
    · simp only [List.any_cons, Bool.or_eq_true, decide_eq_true_eq] at h
      rcases h with h | h
      · exact absurd h hp
      · simp [lookupProvider, hp, ih h]

theorem lookupProvider_map_ne (l : List (ProviderKey × ProviderMessageSet))
    (p q : ProviderKey) (g : ProviderMessageSet → ProviderMessageSet)
    (hq : q ≠ p) :
    lookupProvider (l.map (fun e => if e.1 = p then (p, g e.2) else e)) q =
      lookupProvider l q := by
  have hpq : p ≠ q := Ne.symm hq
  induction l with
  | nil => simp [lookupProvider]
  | cons e rest ih =>
    by_cases hp : e.1 = p
    · have heq : e.1 ≠ q := by rw [hp]; exact hpq
      simp [lookupProvider, hp, hpq, heq, ih]
    · by_cases h2 : e.1 = q
      · simp [lookupProvider, hp, h2, hq]
      · simp [lookupProvider, hp, h2, ih]

theorem lookupProvider_absent (l : List (ProviderKey × ProviderMessageSet))
    (p : ProviderKey) (h : ∀ e ∈ l, e.1 ≠ p) :
    lookupProvider l p = ProviderMessageSet.empty := by
  induction l with
  | nil => rfl
  | cons e rest ih =>
    have h1 := h e (List.mem_cons_self e rest)
    simpa [lookupProvider, h1] using ih fun x hx => h x (List.mem_cons_of_mem e hx)

theorem lookupProvider_append_absent
    (l l2 : List (ProviderKey × ProviderMessageSet)) (p : ProviderKey)
    (h : ∀ e ∈ l, e.1 ≠ p) :
    lookupProvider (l ++ l2) p = lookupProvider l2 p := by
  induction l with
  | nil => rfl
  | cons e rest ih =>
    have h1 := h e (List.mem_cons_self e rest)
    simpa [lookupProvider, h1] using ih fun x hx => h x (List.mem_cons_of_mem e hx)

theorem lookupProvider_append_single_ne
    (l : List (ProviderKey × ProviderMessageSet)) (p q : ProviderKey)
    (v : ProviderMessageSet) (hq : q ≠ p) :
    lookupProvider (l ++ [(p, v)]) q = lookupProvider l q := by
  have hpq : p ≠ q := Ne.symm hq
  induction l with
  | nil => simp [lookupProvider, hpq]
  | cons e rest ih =>
    by_cases h2 : e.1 = q
    · simp [lookupProvider, h2]
    · simp [lookupProvider, h2, ih]

theorem lookupProvider_mem_nodup (l : List (ProviderKey × ProviderMessageSet))
    (hnd : (l.map (fun e => e.1)).Nodup) (e : ProviderKey × ProviderMessageSet)
    (he : e ∈ l) : lookupProvider l e.1 = e.2 := by
  induction l with
  | nil => simp at he
  | cons x rest ih =>
    simp only [List.map_cons, List.nodup_cons] at hnd
    rcases List.mem_cons.mp he with h | h
    · subst h; simp [lookupProvider]
    · have hx : x.1 ≠ e.1 := by
        intro hh
        exact hnd.1 (hh ▸ List.mem_map_of_mem (fun y => y.1) h)
      simp [lookupProvider, hx, ih hnd.2 h]

/-! ### Frame lemmas for the store operations -/

theorem providerSet_update_self (p : ProviderKey) (upd : MessageUpdate)
    (s : StoreState) :
    providerSet (updateMessages p upd s) p = applyUpdate upd (providerSet s p) := by
  unfold updateMessages providerSet
  by_cases h : s.messages.any (fun e => decide (e.1 = p)) = true
  · simpa [h] using lookupProvider_map_self s.messages p (applyUpdate upd) h
  · have habs : ∀ e ∈ s.messages, e.1 ≠ p := by
      intro e he hep
      simp only [List.any_eq_true, decide_eq_true_eq] at h
      exact h ⟨e, he, hep⟩
    rw [if_neg h]
    have h1 := lookupProvider_append_absent s.messages
      [(p, applyUpdate upd ProviderMessageSet.empty)] p habs
    have h2 := lookupProvider_absent s.messages p habs
    simp [h1, h2, lookupProvider]

theorem providerSet_update_ne (p q : ProviderKey) (upd : MessageUpdate)
    (s : StoreState) (hq : q ≠ p) :
    providerSet (updateMessages p upd s) q = providerSet s q := by
  unfold updateMessages providerSet
  by_cases h : s.messages.any (fun e => decide (e.1 = p)) = true
  · simpa [h] using lookupProvider_map_ne s.messages p q (applyUpdate upd) hq
  · rw [if_neg h]
    exact lookupProvider_append_single_ne s.messages p q _ hq

theorem applyInvalidation_empty (inv : Invalidation) :
    applyInvalidation inv ProviderMessageSet.empty = ProviderMessageSet.empty := by
  cases inv <;> rfl

theorem providerSet_invalidate_self (p : ProviderKey) (inv : Invalidation)
    (s : StoreState) :
    providerSet (invalidateMessages p inv s) p =
      applyInvalidation inv (providerSet s p) := by
  unfold invalidateMessages providerSet
  by_cases h : s.messages.any (fun e => decide (e.1 = p)) = true
  · exact lookupProvider_map_self s.messages p (applyInvalidation inv) h
  · have habs : ∀ e ∈ s.messages, e.1 ≠ p := by
      intro e he hep
      simp only [List.any_eq_true, decide_eq_true_eq] at h
      exact h ⟨e, he, hep⟩
    have habs2 : ∀ e ∈ s.messages.map
        (fun e => if e.1 = p then (p, applyInvalidation inv e.2) else e), e.1 ≠ p := by
      intro e he hep
      rcases List.mem_map.mp he with ⟨x, hx, hxe⟩
      have hxp := habs x hx
      rw [if_neg hxp] at hxe
      exact hxp (hxe ▸ hep)
    rw [lookupProvider_absent _ p habs2, lookupProvider_absent s.messages p habs,
      applyInvalidation_empty]

theorem providerSet_invalidate_ne (p q : ProviderKey) (inv : Invalidation)
    (s : StoreState) (hq : q ≠ p) :
    providerSet (invalidateMessages p inv s) q = providerSet s q := by
  exact lookupProvider_map_ne s.messages p q (applyInvalidation inv) hq

theorem providerSet_remove_self (p : ProviderKey) (s : StoreState) :
    providerSet (removeProvider p s) p = ProviderMessageSet.empty := by
  apply lookupProvider_absent
  intro e he
  have := List.of_mem_filter he
  simpa using this

theorem hasProvider_remove_self (p : ProviderKey) (s : StoreState) :
    StoreState.hasProvider (removeProvider p s) p = false := by
  unfold StoreState.hasProvider removeProvider
  rw [List.any_eq_false]
  intro e he
  have := List.of_mem_filter he
  simpa using this

/-! ### Well-formedness preservation and unions under well-formedness -/

theorem keys_map_key_preserving (l : List (ProviderKey × ProviderMessageSet))
    (p : ProviderKey) (g : ProviderMessageSet → ProviderMessageSet) :
    ((l.map (fun e => if e.1 = p then (p, g e.2) else e)).map (fun e => e.1)) =
      l.map (fun e => e.1) := by
  induction l with
  | nil => rfl
  | cons e rest ih =>
    by_cases h : e.1 = p
    · simp [h, ih]
    · simp [h, ih]

theorem StoreWF_update (p : ProviderKey) (upd : MessageUpdate) (s : StoreState)
    (hwf : StoreWF s) : StoreWF (updateMessages p upd s) := by
  unfold StoreWF updateMessages
  by_cases h : s.messages.any (fun e => decide (e.1 = p)) = true
  · rw [if_pos h]
    show ((s.messages.map
      (fun e => if e.1 = p then (p, applyUpdate upd e.2) else e)).map (fun e => e.1)).Nodup
    rw [keys_map_key_preserving]
    exact hwf
  · rw [if_neg h]
    have habs : p ∉ s.messages.map (fun e => e.1) := by
      intro hp
      rcases List.mem_map.mp hp with ⟨x, hx, hxe⟩
      simp only [List.any_eq_true, decide_eq_true_eq] at h
      exact h ⟨x, hx, hxe⟩
    show ((s.messages ++ [(p, applyUpdate upd ProviderMessageSet.empty)]).map
      (fun e => e.1)).Nodup
    rw [List.map_append]
    exact List.Nodup.append hwf (List.nodup_singleton p)
      (fun a ha hb => habs (by rwa [List.mem_singleton.mp hb] at ha))

theorem StoreWF_invalidate (p : ProviderKey) (inv : Invalidation)
    (s : StoreState) (hwf : StoreWF s) : StoreWF (invalidateMessages p inv s) := by
  unfold StoreWF invalidateMessages
  show ((s.messages.map
    (fun e => if e.1 = p then (p, applyInvalidation inv e.2) else e)).map (fun e => e.1)).Nodup
  rw [keys_map_key_preserving]
  exact hwf

theorem StoreWF_remove (p : ProviderKey) (s : StoreState) (hwf : StoreWF s) :
    StoreWF (removeProvider p s) := by
  unfold StoreWF removeProvider
  exact hwf.sublist ((List.filter_sublist s.messages).map (fun e => e.1))

theorem gfm_list_unique (l : List (ProviderKey × ProviderMessageSet))
    (A : ProviderKey) (f : String)
    (hwf : (l.map (fun e => e.1)).Nodup)
    (hother : ∀ B, B ≠ A →
      lookupPath (lookupProvider l B).filePathToMessages f = []) :
    (l.map (fun e => lookupPath e.2.filePathToMessages f)).flatten =
      lookupPath (lookupProvider l A).filePathToMessages f := by
  induction l with
  | nil => simp [lookupProvider, ProviderMessageSet.empty, lookupPath]
  | cons e rest ih =>
    simp only [List.map_cons, List.nodup_cons] at hwf
    have hrest : ∀ B, B ≠ A →
        lookupPath (lookupProvider rest B).filePathToMessages f = [] := by
      intro B hB
      by_cases hmem : ∃ x ∈ rest, x.1 = B
      · rcases hmem with ⟨x, hx, hxB⟩
        have he1 : e.1 ≠ B := by
          intro hh
          exact hwf.1 (hh ▸ hxB ▸ List.mem_map_of_mem (fun y => y.1) hx)
        have hstep : lookupProvider (e :: rest) B = lookupProvider rest B := by
          simp [lookupProvider, he1]
        rw [← hstep]
        exact hother B hB
      · push_neg at hmem
        rw [lookupProvider_absent rest B (fun x hx => hmem x hx)]
        rfl
    by_cases hA : e.1 = A
    · have hrest0 : ∀ x ∈ rest, lookupPath x.2.filePathToMessages f = [] := by
        intro x hx
        have hxA : x.1 ≠ A := by
          intro hh
          exact hwf.1 (hA ▸ hh ▸ List.mem_map_of_mem (fun y => y.1) hx)
        have hlook := lookupProvider_mem_nodup rest hwf.2 x hx
        have := hrest x.1 hxA
        rwa [hlook] at this
      have hflat : (rest.map (fun e => lookupPath e.2.filePathToMessages f)).flatten = [] := by
        rw [List.flatten_eq_nil_iff]
        intro x hx
        rcases List.mem_map.mp hx with ⟨y, hy, rfl⟩
        exact hrest0 y hy
      simp [lookupProvider, hA, hflat]
    · have hhead : lookupPath e.2.filePathToMessages f = [] := by
        have := hother e.1 hA
        simpa [lookupProvider] using this
      simp [lookupProvider, hA, hhead, ih hwf.2 hrest]

theorem getFileMessages_eq_provider_of_unique (s : StoreState)
    (A : ProviderKey) (f : String) (hwf : StoreWF s)
    (hother : ∀ B, B ≠ A → providerFileMessages s B f = []) :
    getFileMessages s f = providerFileMessages s A f :=
  gfm_list_unique s.messages A f hwf hother

theorem mem_getFileMessages_wf (s : StoreState) (f : String)
    (m : DiagnosticMessage) (hwf : StoreWF s) (hm : m ∈ getFileMessages s f) :
    ∃ p, m ∈ providerFileMessages s p f := by
  unfold getFileMessages at hm
  rcases List.mem_flatten.mp hm with ⟨lst, hlst, hmem⟩
  rcases List.mem_map.mp hlst with ⟨e, he, rfl⟩
  refine ⟨e.1, ?_⟩
  unfold providerFileMessages providerSet
  rw [lookupProvider_mem_nodup s.messages hwf e he]
  exact hmem

theorem providerFileMessages_out (s : StoreState) (B : ProviderKey) (f : String)
    (h : ∀ e ∈ s.messages, e.1 ≠ B) : providerFileMessages s B f = [] := by
  unfold providerFileMessages providerSet
  rw [lookupProvider_absent s.messages B h]
  rfl

/-! ### Sample data for the witnesses, mirroring `createStore-spec.js` -/

/-- Sample: fileA Error message of provider A. -/
def msgA1 : DiagnosticMessage :=
  ⟨"dummyProviderA", .file, "Error", some "fileA", none, none⟩

/-- Sample: fileA Warning message of provider A. -/
def msgA2 : DiagnosticMessage :=
  ⟨"dummyProviderA", .file, "Warning", some "fileA", none, none⟩

/-- Sample: fileB Error message of provider B. -/
def msgB : DiagnosticMessage :=
  ⟨"dummyProviderB", .file, "Error", some "fileB", none, none⟩

/-- Sample: project-scope message of provider A. -/
def projA : DiagnosticMessage :=
  ⟨"dummyProviderA", .project, "Error", none, none, none⟩

/-- Sample: project-scope message of provider B. -/
def projB : DiagnosticMessage :=
  ⟨"dummyProviderB", .project, "Error", none, none, none⟩

/-- Sample store holding only provider 1's update (fileB + project). -/
def stateB : StoreState :=
  updateMessages 1 ⟨[("fileB", [msgB])], some [projB]⟩ StoreState.empty

/-- Sample store holding provider 0's and provider 1's updates. -/
def stateAB : StoreState :=
  updateMessages 1 ⟨[("fileB", [msgB])], some [projB]⟩
    (updateMessages 0 ⟨[("fileA", [msgA1])], some [projA]⟩ StoreState.empty)

/-! ### C1 — replace-not-merge per path -/

/-- C1: after `updateMessages(A, {f: L1})` then `updateMessages(A, {f: L2})`,
provider A's messages at `f` are exactly `L2` (those of `L1` are gone), A's
messages at paths absent from the second update's map are unchanged, every
other provider's message set is unchanged, and — when no other provider
contributes at `f` — `getFileMessages(f)` returns exactly `L2`: replacement
is per-path, not per-provider. -/
theorem updateMessages_replace_per_path (s : StoreState) (A : ProviderKey)
    (f : String) (L1 L2 : List DiagnosticMessage) :
    providerFileMessages (updateMessages A ⟨[(f, L2)], none⟩
      (updateMessages A ⟨[(f, L1)], none⟩ s)) A f = L2
    ∧ (∀ g, g ≠ f → providerFileMessages (updateMessages A ⟨[(f, L2)], none⟩
        (updateMessages A ⟨[(f, L1)], none⟩ s)) A g =
        providerFileMessages (updateMessages A ⟨[(f, L1)], none⟩ s) A g)
    ∧ (∀ B, B ≠ A → providerSet (updateMessages A ⟨[(f, L2)], none⟩
        (updateMessages A ⟨[(f, L1)], none⟩ s)) B =
        providerSet (updateMessages A ⟨[(f, L1)], none⟩ s) B)
    ∧ (StoreWF s → (∀ B, B ≠ A → providerFileMessages s B f = []) →
        getFileMessages (updateMessages A ⟨[(f, L2)], none⟩
          (updateMessages A ⟨[(f, L1)], none⟩ s)) f = L2) := by
  have hself : providerSet (updateMessages A ⟨[(f, L2)], none⟩
      (updateMessages A ⟨[(f, L1)], none⟩ s)) A =
      applyUpdate ⟨[(f, L2)], none⟩
        (providerSet (updateMessages A ⟨[(f, L1)], none⟩ s) A) :=
    providerSet_update_self A ⟨[(f, L2)], none⟩ _
  have hc1 : providerFileMessages (updateMessages A ⟨[(f, L2)], none⟩
      (updateMessages A ⟨[(f, L1)], none⟩ s)) A f = L2 := by
    unfold providerFileMessages
    rw [hself]
    simp [applyUpdate, lookupPath_setPath_self]
  refine ⟨hc1, ?_, ?_, ?_⟩
  · intro g hg
    unfold providerFileMessages
    rw [hself]
    simp [applyUpdate, lookupPath_setPath_ne _ f g L2 hg]
  · intro B hB
    exact providerSet_update_ne A B ⟨[(f, L2)], none⟩ _ hB
  · intro hwf hother
    have hwf1 := StoreWF_update A ⟨[(f, L1)], none⟩ s hwf
    have hwf2 := StoreWF_update A ⟨[(f, L2)], none⟩ _ hwf1
    have hother2 : ∀ B, B ≠ A → providerFileMessages (updateMessages A
        ⟨[(f, L2)], none⟩ (updateMessages A ⟨[(f, L1)], none⟩ s)) B f = [] := by
      intro B hB
      unfold providerFileMessages
      rw [providerSet_update_ne A B ⟨[(f, L2)], none⟩ _ hB,
        providerSet_update_ne A B ⟨[(f, L1)], none⟩ s hB]
      exact hother B hB
    rw [getFileMessages_eq_provider_of_unique _ A f hwf2 hother2]
    exact hc1

/-- C1 witness: the overwrite scenario of `createStore-spec.js` run from a
store already holding provider 1's data. -/
theorem updateMessages_replace_per_path_witness :
    providerFileMessages (updateMessages 0 ⟨[("fileA", [msgA2])], none⟩
      (updateMessages 0 ⟨[("fileA", [msgA1])], none⟩ stateB)) 0 "fileA" = [msgA2]
    ∧ providerFileMessages (updateMessages 0 ⟨[("fileA", [msgA2])], none⟩
        (updateMessages 0 ⟨[("fileA", [msgA1])], none⟩ stateB)) 0 "fileB" =
        providerFileMessages (updateMessages 0 ⟨[("fileA", [msgA1])], none⟩ stateB) 0 "fileB"
    ∧ providerSet (updateMessages 0 ⟨[("fileA", [msgA2])], none⟩
        (updateMessages 0 ⟨[("fileA", [msgA1])], none⟩ stateB)) 1 =
        providerSet (updateMessages 0 ⟨[("fileA", [msgA1])], none⟩ stateB) 1
    ∧ getFileMessages (updateMessages 0 ⟨[("fileA", [msgA2])], none⟩
        (updateMessages 0 ⟨[("fileA", [msgA1])], none⟩ stateB)) "fileA" = [msgA2] := by
  have h := updateMessages_replace_per_path stateB 0 "fileA" [msgA1] [msgA2]
  refine ⟨h.1, h.2.1 "fileB" (by decide), h.2.2.1 1 (by decide), h.2.2.2 ?_ ?_⟩
  · show (stateB.messages.map (fun e => e.1)).Nodup
    decide
  · intro B hB
    by_cases hB1 : B = 1
    · subst hB1
      decide
    · apply providerFileMessages_out
      intro e he
      have hmsg : stateB.messages =
          [(1, applyUpdate ⟨[("fileB", [msgB])], some [projB]⟩ ProviderMessageSet.empty)] := rfl
      rw [hmsg] at he
      rcases List.mem_singleton.mp he with rfl
      exact fun hh => hB1 hh.symm

/-! ### C2 — provider isolation -/

/-- C2: for distinct providers A and B, `updateMessages` and
`invalidateMessages` dispatched for A leave B's message set — and hence B's
contribution to `getFileMessages`, `getProjectMessages` and `getMessages` —
unchanged, at every path and scope. -/
theorem provider_isolation (s : StoreState) (A B : ProviderKey) (hAB : B ≠ A)
    (upd : MessageUpdate) (inv : Invalidation) :
    providerSet (updateMessages A upd s) B = providerSet s B
    ∧ providerSet (invalidateMessages A inv s) B = providerSet s B
    ∧ (∀ f, providerFileMessages (updateMessages A upd s) B f =
        providerFileMessages s B f)
    ∧ providerProjectMessages (updateMessages A upd s) B =
        providerProjectMessages s B
    ∧ (∀ f, providerFileMessages (invalidateMessages A inv s) B f =
        providerFileMessages s B f)
    ∧ providerProjectMessages (invalidateMessages A inv s) B =
        providerProjectMessages s B := by
  have h1 := providerSet_update_ne A B upd s hAB
  have h2 := providerSet_invalidate_ne A B inv s hAB
  refine ⟨h1, h2, ?_, ?_, ?_, ?_⟩
  · intro f
    unfold providerFileMessages
    rw [h1]
  · unfold providerProjectMessages
    rw [h1]
  · intro f
    unfold providerFileMessages
    rw [h2]
  · unfold providerProjectMessages
    rw [h2]

/-- C2 witness: provider 0's update and file invalidation leave provider 1's
data in the two-provider sample store untouched. -/
theorem provider_isolation_witness :
    providerSet (updateMessages 0 ⟨[("fileA", [msgA2])], some [projA]⟩ stateAB) 1 =
      providerSet stateAB 1
    ∧ providerSet (invalidateMessages 0 (.file ["fileA"]) stateAB) 1 =
      providerSet stateAB 1
    ∧ providerFileMessages (invalidateMessages 0 (.file ["fileA"]) stateAB) 1 "fileB" =
      providerFileMessages stateAB 1 "fileB"
    ∧ providerProjectMessages (updateMessages 0 ⟨[("fileA", [msgA2])], some [projA]⟩ stateAB) 1 =
      providerProjectMessages stateAB 1 := by
  have h := provider_isolation stateAB 0 1 (by decide)
    ⟨[("fileA", [msgA2])], some [projA]⟩ (.file ["fileA"])
  exact ⟨h.1, h.2.1, h.2.2.2.2.1 "fileB", h.2.2.2.1⟩

/-! ### C3 — scoped file invalidation -/

/-- C3: `invalidateMessages(A, {scope: file, filePaths: [f]})` removes
exactly A's file-scope messages at `f`: afterwards A contributes nothing at
`f`, A's messages at other paths and A's project messages are unchanged,
every other provider's set is unchanged, and any message no other provider
contributes at `f` is gone from `getFileMessages(f)`. -/
theorem invalidate_file_scope (s : StoreState) (A : ProviderKey) (f : String) :
    providerFileMessages (invalidateMessages A (.file [f]) s) A f = []
    ∧ (∀ g, g ≠ f → providerFileMessages (invalidateMessages A (.file [f]) s) A g =
        providerFileMessages s A g)
    ∧ providerProjectMessages (invalidateMessages A (.file [f]) s) A =
        providerProjectMessages s A
    ∧ (∀ B, B ≠ A → providerSet (invalidateMessages A (.file [f]) s) B =
        providerSet s B)
    ∧ (StoreWF s → ∀ m, (∀ B, B ≠ A → m ∉ providerFileMessages s B f) →
        m ∉ getFileMessages (invalidateMessages A (.file [f]) s) f) := by
  have hself := providerSet_invalidate_self A (.file [f]) s
  have hc1 : providerFileMessages (invalidateMessages A (.file [f]) s) A f = [] := by
    unfold providerFileMessages
    rw [hself]
    simpa [applyInvalidation] using
      lookupPath_removePaths_mem (providerSet s A).filePathToMessages [f] f
        (List.mem_singleton.mpr rfl)
  refine ⟨hc1, ?_, ?_, ?_, ?_⟩
  · intro g hg
    unfold providerFileMessages
    rw [hself]
    simpa [applyInvalidation] using
      lookupPath_removePaths_not_mem (providerSet s A).filePathToMessages [f] g
        (by simpa using hg)
  · unfold providerProjectMessages
    rw [hself]
    rfl
  · intro B hB
    exact providerSet_invalidate_ne A B (.file [f]) s hB
  · intro hwf m hm hmem
    have hwf2 := StoreWF_invalidate A (.file [f]) s hwf
    rcases mem_getFileMessages_wf _ f m hwf2 hmem with ⟨p, hp⟩
    by_cases hpA : p = A
    · subst hpA
      rw [hc1] at hp
      simp at hp
    · rw [show providerFileMessages (invalidateMessages A (.file [f]) s) p f =
          providerFileMessages s p f from by
        unfold providerFileMessages
        rw [providerSet_invalidate_ne A p (.file [f]) s hpA]] at hp
      exact hm p hpA hp

/-- C3 witness: invalidating provider 0's messages at `fileA` in the
two-provider sample store, checked at the concrete paths and message. -/
theorem invalidate_file_scope_witness :
    providerFileMessages (invalidateMessages 0 (.file ["fileA"]) stateAB) 0 "fileA" = []
    ∧ providerFileMessages (invalidateMessages 0 (.file ["fileA"]) stateAB) 0 "fileB" =
      providerFileMessages stateAB 0 "fileB"
    ∧ providerProjectMessages (invalidateMessages 0 (.file ["fileA"]) stateAB) 0 =
      providerProjectMessages stateAB 0
    ∧ msgA1 ∉ getFileMessages (invalidateMessages 0 (.file ["fileA"]) stateAB) "fileA" := by
  have h := invalidate_file_scope stateAB 0 "fileA"
  refine ⟨h.1, h.2.1 "fileB" (by decide), h.2.2.1, h.2.2.2.2 ?_ msgA1 ?_⟩
  · show (stateAB.messages.map (fun e => e.1)).Nodup
    decide
  · intro B hB
    by_cases hB1 : B = 1
    · subst hB1
      decide
    · intro hmem
      rw [providerFileMessages_out stateAB B "fileA" ?_] at hmem
      · simp at hmem
      · intro e he
        have hmsg : stateAB.messages =
            [(0, applyUpdate ⟨[("fileA", [msgA1])], some [projA]⟩ ProviderMessageSet.empty),
             (1, applyUpdate ⟨[("fileB", [msgB])], some [projB]⟩ ProviderMessageSet.empty)] := rfl
        rw [hmsg] at he
        rcases List.mem_cons.mp he with he | he
        · subst he
          exact fun hh => hB hh.symm
        · rcases List.mem_singleton.mp he with rfl
          exact fun hh => hB1 hh.symm

/-! ### C4 — removeProvider equals invalidate-all plus key deletion -/

theorem filter_ne_map_update (l : List (ProviderKey × ProviderMessageSet))
    (p : ProviderKey) (g : ProviderMessageSet → ProviderMessageSet) :
    (l.map (fun e => if e.1 = p then (p, g e.2) else e)).filter
      (fun e => decide (e.1 ≠ p)) = l.filter (fun e => decide (e.1 ≠ p)) := by
  induction l with
  | nil => rfl
  | cons e rest ih =>
    by_cases h : e.1 = p
    · have hl : (if e.1 = p then (p, g e.2) else e) = (p, g e.2) := if_pos h
      rw [List.map_cons, hl, List.filter_cons, List.filter_cons, ih]
      simp [h]
    · have hl : (if e.1 = p then (p, g e.2) else e) = e := if_neg h
      rw [List.map_cons, hl, List.filter_cons, List.filter_cons, ih]

/-- C4: `removeProvider(P)` produces exactly the state of
`invalidateMessages(P, {scope: all})` followed by deleting `P` as a key of
the provider map: afterwards `P` contributes no (even empty) entry and its
messages are gone from both scopes. -/
theorem removeProvider_clears (P : ProviderKey) (s : StoreState) :
    removeProvider P s = removeProvider P (invalidateMessages P .all s)
    ∧ StoreState.hasProvider (removeProvider P s) P = false
    ∧ (∀ f, providerFileMessages (removeProvider P s) P f = [])
    ∧ providerProjectMessages (removeProvider P s) P = [] := by
  refine ⟨?_, hasProvider_remove_self P s, ?_, ?_⟩
  · show (⟨s.messages.filter (fun e => decide (e.1 ≠ P))⟩ : StoreState) = _
    unfold removeProvider invalidateMessages
    rw [filter_ne_map_update s.messages P (applyInvalidation .all)]
  · intro f
    unfold providerFileMessages
    rw [providerSet_remove_self P s]
    rfl
  · unfold providerProjectMessages
    rw [providerSet_remove_self P s]
    rfl

/-! ### Diagnostic updater: subscriptions and notifications -/

/-- Modelled from the spec: a subscription's filter — one file path, the
project scope, or everything. -/
inductive SubscriptionFilter where
  | file (path : String)
  | project
  | all
deriving DecidableEq, Repr

/-- Modelled from the spec: a registered subscription of the diagnostic
updater (`DiagnosticUpdater` is not under the source tree): its id and
filter. -/
structure Subscription where
  id : Nat
  filter : SubscriptionFilter
deriving DecidableEq, Repr

/-- Modelled from the spec: the diagnostic updater layered on the store —
the store state plus the registered subscriptions (next fresh id kept for
registration). -/
structure DiagnosticUpdater where
  state : StoreState
  subs : List Subscription
  nextId : Nat
deriving DecidableEq, Repr

/-- The value delivered to a subscription's callback: a file callback
receives `{filePath, messages}`, the project and all-messages callbacks
receive the corresponding unions. -/
inductive NotificationPayload where
  | fileMessages (filePath : String) (messages : List DiagnosticMessage)
  | projectMessages (messages : List DiagnosticMessage)
  | allMessages (messages : List DiagnosticMessage)
deriving DecidableEq, Repr

/-- One callback invocation: which subscription fired and with what value. -/
structure Notification where
  subId : Nat
  payload : NotificationPayload
deriving DecidableEq, Repr

/-- Modelled from the spec: `observeFileMessages(path, cb)` — registers the
subscription and immediately invokes the callback once with the current
union at `path`. -/
def observeFileMessages (path : String) (u : DiagnosticUpdater) :
    DiagnosticUpdater × List Notification :=
  (⟨u.state, u.subs ++ [⟨u.nextId, .file path⟩], u.nextId + 1⟩,
   [⟨u.nextId, .fileMessages path (getFileMessages u.state path)⟩])

/-- Modelled from the spec: `observeProjectMessages(cb)` — registers the
subscription and immediately invokes the callback once with the current
project messages. -/
def observeProjectMessages (u : DiagnosticUpdater) :
    DiagnosticUpdater × List Notification :=
  (⟨u.state, u.subs ++ [⟨u.nextId, .project⟩], u.nextId + 1⟩,
   [⟨u.nextId, .projectMessages (getProjectMessages u.state)⟩])

/-- Modelled from the spec: `observeMessages(cb)` — registers the
subscription and immediately invokes the callback once with the full
current union. -/
def observeMessages (u : DiagnosticUpdater) :
    DiagnosticUpdater × List Notification :=
  (⟨u.state, u.subs ++ [⟨u.nextId, .all⟩], u.nextId + 1⟩,
   [⟨u.nextId, .allMessages (getMessages u.state)⟩])

/-- A store operation dispatched through the updater. -/
inductive StoreAction where
  | update (p : ProviderKey) (upd : MessageUpdate)
  | invalidate (p : ProviderKey) (inv : Invalidation)
  | remove (p : ProviderKey)
deriving DecidableEq, Repr

/-- The store transition an action performs. -/
def applyAction (a : StoreAction) (s : StoreState) : StoreState :=
  match a with
  | .update p upd => updateMessages p upd s
  | .invalidate p inv => invalidateMessages p inv s
  | .remove p => removeProvider p s

/-- Modelled from the spec: the file paths an operation touches — the paths
named by the update or invalidation (for provider-wide operations, every
path the provider currently holds). A notification fires whenever an
operation touches a path, even if the resulting content is unchanged. -/
def touchedPaths (a : StoreAction) (s : StoreState) : List String :=
  match a with
  | .update _ upd => upd.filePathToMessages.map (fun e => e.1)
  | .invalidate _ (.file paths) => paths
  | .invalidate _ .project => []
  | .invalidate p .all => (providerSet s p).filePathToMessages.map (fun e => e.1)
  | .remove p => (providerSet s p).filePathToMessages.map (fun e => e.1)

/-- Modelled from the spec: whether an operation touches the project scope. -/
def touchesProject (a : StoreAction) : Bool :=
  match a with
  | .update _ upd => upd.projectMessages.isSome
  | .invalidate _ (.file _) => false
  | .invalidate _ .project => true
  | .invalidate _ .all => true
  | .remove _ => true

/-- Modelled from the spec: the at-most-one notification a single store
transition delivers to one subscription — file subscriptions fire only when
their path was touched, project subscriptions only when the project scope
was touched, all-messages subscriptions when anything was. -/
def notifyOne (s2 : StoreState) (tp : List String) (tproj : Bool)
    (sub : Subscription) : Option Notification :=
  match sub.filter with
  | .file f =>
    if tp.contains f then some ⟨sub.id, .fileMessages f (getFileMessages s2 f)⟩
    else none
  | .project =>
    if tproj then some ⟨sub.id, .projectMessages (getProjectMessages s2)⟩
    else none
  | .all =>
    if !tp.isEmpty || tproj then some ⟨sub.id, .allMessages (getMessages s2)⟩
    else none

/-- Modelled from the spec: dispatching one operation — the store
transitions synchronously and each registered subscription whose filter is
affected is invoked exactly once, in registration order. -/
def dispatch (a : StoreAction) (u : DiagnosticUpdater) :
    DiagnosticUpdater × List Notification :=
  (⟨applyAction a u.state, u.subs, u.nextId⟩,
   u.subs.filterMap (notifyOne (applyAction a u.state) (touchedPaths a u.state)
     (touchesProject a)))

/-- Modelled from the spec: disposing a subscription — the callback is
removed with immediate effect. -/
def dispose (i : Nat) (u : DiagnosticUpdater) : DiagnosticUpdater :=
  ⟨u.state, u.subs.filter (fun sub => decide (sub.id ≠ i)), u.nextId⟩

/-- Dispatch a whole sequence of operations, collecting every callback
invocation in order. -/
def dispatchAll (acts : List StoreAction) (u : DiagnosticUpdater) :
    DiagnosticUpdater × List Notification :=
  match acts with
  | [] => (u, [])
  | a :: rest =>
    let r1 := dispatch a u
    let r2 := dispatchAll rest r1.1
    (r2.1, r1.2 ++ r2.2)

/-! ### C5 — immediate delivery and targeted notification -/

/-- C5: a newly registered subscription is invoked exactly once, immediately,
with the current state matching its filter (a file subscription receives
`{filePath, messages: current union at path}`); and a store transition
touching only file `a` and the project scope invokes the `a`-file, project
and all-messages callbacks exactly once each — in registration order, with
the new state — but not the callback observing a different file `b`. -/
theorem subscription_immediate_and_targeted :
    (∀ (u : DiagnosticUpdater) (path : String),
      (observeFileMessages path u).2 =
        [⟨u.nextId, .fileMessages path (getFileMessages u.state path)⟩])
    ∧ (∀ u : DiagnosticUpdater, (observeProjectMessages u).2 =
        [⟨u.nextId, .projectMessages (getProjectMessages u.state)⟩])
    ∧ (∀ u : DiagnosticUpdater, (observeMessages u).2 =
        [⟨u.nextId, .allMessages (getMessages u.state)⟩])
    ∧ (∀ (s : StoreState) (n ia ib ip iall : Nat) (a b : String)
        (p : ProviderKey) (l lp : List DiagnosticMessage), a ≠ b →
        (dispatch (.update p ⟨[(a, l)], some lp⟩)
          ⟨s, [⟨ia, .file a⟩, ⟨ib, .file b⟩, ⟨ip, .project⟩, ⟨iall, .all⟩], n⟩).2 =
          [⟨ia, .fileMessages a
              (getFileMessages (updateMessages p ⟨[(a, l)], some lp⟩ s) a)⟩,
           ⟨ip, .projectMessages
              (getProjectMessages (updateMessages p ⟨[(a, l)], some lp⟩ s))⟩,
           ⟨iall, .allMessages
              (getMessages (updateMessages p ⟨[(a, l)], some lp⟩ s))⟩]) := by
  refine ⟨fun u path => rfl, fun u => rfl, fun u => rfl, ?_⟩
  intro s n ia ib ip iall a b p l lp hab
  have hba : (a == b) = false := beq_eq_false_iff_ne.mpr hab
  simp [dispatch, notifyOne, applyAction, touchedPaths, touchesProject,
    List.filterMap, List.contains, hba, Ne.symm hab]

/-- C5 witness: the targeted-notification scenario at fileA/fileB with the
sample data, run from the provider-1 store. -/
theorem subscription_immediate_and_targeted_witness :
    (observeFileMessages "fileA" ⟨stateB, [], 0⟩).2 =
      [⟨0, .fileMessages "fileA" (getFileMessages stateB "fileA")⟩]
    ∧ (dispatch (.update 0 ⟨[("fileA", [msgA1])], some [projA]⟩)
        ⟨stateB, [⟨0, .file "fileA"⟩, ⟨1, .file "fileB"⟩, ⟨2, .project⟩,
          ⟨3, .all⟩], 4⟩).2 =
        [⟨0, .fileMessages "fileA"
            (getFileMessages (updateMessages 0 ⟨[("fileA", [msgA1])], some [projA]⟩ stateB) "fileA")⟩,
         ⟨2, .projectMessages
            (getProjectMessages (updateMessages 0 ⟨[("fileA", [msgA1])], some [projA]⟩ stateB))⟩,
         ⟨3, .allMessages
            (getMessages (updateMessages 0 ⟨[("fileA", [msgA1])], some [projA]⟩ stateB))⟩] := by
  have h := subscription_immediate_and_targeted
  exact ⟨h.1 ⟨stateB, [], 0⟩ "fileA",
    h.2.2.2 stateB 4 0 1 2 3 "fileA" "fileB" 0 [msgA1] [projA] (by decide)⟩

/-! ### C6 — disposed subscriptions receive nothing -/

theorem notifyOne_subId (s2 : StoreState) (tp : List String) (tproj : Bool)
    (sub : Subscription) (n : Notification)
    (h : notifyOne s2 tp tproj sub = some n) : n.subId = sub.id := by
  unfold notifyOne at h
  split at h <;> split at h <;> first | (cases h; rfl) | simp at h

theorem dispatch_no_id (u : DiagnosticUpdater) (i : Nat) (a : StoreAction)
    (h : ∀ sub ∈ u.subs, sub.id ≠ i) :
    (∀ n ∈ (dispatch a u).2, n.subId ≠ i)
    ∧ (∀ sub ∈ (dispatch a u).1.subs, sub.id ≠ i) := by
  constructor
  · intro n hn
    rcases List.mem_filterMap.mp hn with ⟨sub, hsub, hns⟩
    rw [notifyOne_subId _ _ _ _ _ hns]
    exact h sub hsub
  · intro sub hsub
    exact h sub hsub

/-- C6: once a subscription is disposed, no subsequent sequence of store
operations ever invokes its callback again — every notification produced by
every later dispatch carries a different subscription id. -/
theorem disposed_subscription_silent (u : DiagnosticUpdater) (i : Nat)
    (acts : List StoreAction) :
    ((dispatchAll acts (dispose i u)).2.all
      (fun nt => decide (nt.subId ≠ i))) = true := by
  have hd : ∀ sub ∈ (dispose i u).subs, sub.id ≠ i := by
    intro sub hsub
    have := List.of_mem_filter hsub
    simpa using this
  suffices hgen : ∀ (acts2 : List StoreAction) (v : DiagnosticUpdater),
      (∀ sub ∈ v.subs, sub.id ≠ i) →
      ((dispatchAll acts2 v).2.all (fun nt => decide (nt.subId ≠ i))) = true by
    exact hgen acts _ hd
  intro acts2
  induction acts2 with
  | nil => intro v hv; rfl
  | cons a rest ih =>
    intro v hv
    show (((dispatch a v).2 ++ (dispatchAll rest (dispatch a v).1).2).all
      (fun nt => decide (nt.subId ≠ i))) = true
    rw [List.all_append, Bool.and_eq_true]
    constructor
    · rw [List.all_eq_true]
      intro nt hnt
      simpa using (dispatch_no_id v i a hv).1 nt hnt
    · exact ih _ ((dispatch_no_id v i a hv).2)

/-! ### Fix applicator -/

/-- Modelled from the spec: replacing the text at `oldRange` in a buffer
(a list of lines) by `newText` — the text before the range start and after
the range end is kept, the range's content is replaced. -/
def setTextInRange (lines : List String) (r : TextRange) (newText : String) :
    List String :=
  lines.take r.1.1 ++
    [(lines.getD r.1.1 "").take r.1.2 ++ newText ++ (lines.getD r.2.1 "").drop r.2.2] ++
    lines.drop (r.2.1 + 1)

/-- Remove the message `m` from a provider message set's list at path `f`. -/
def removeMessage (f : String) (m : DiagnosticMessage)
    (ms : ProviderMessageSet) : ProviderMessageSet :=
  { ms with
    filePathToMessages := ms.filePathToMessages.map
      (fun e => if e.1 = f then (e.1, e.2.filter (fun x => decide (x ≠ m))) else e) }

/-- Modelled from the spec: `applyFix(message)` — when the message carries a
fix (and hence, being file-scoped, a file path), the edit is applied to the
buffer and the message is invalidated from the store by re-asserting the
file's message lists minus the fixed message; a message without a fix is a
no-op. -/
def applyFix (m : DiagnosticMessage) (buf : List String) (s : StoreState) :
    List String × StoreState :=
  match m.fix, m.filePath with
  | some fx, some f =>
    (setTextInRange buf fx.oldRange fx.newText,
     ⟨s.messages.map (fun e => (e.1, removeMessage f m e.2))⟩)
  | _, _ => (buf, s)

theorem not_mem_lookupPath_removeMessage
    (L : List (String × List DiagnosticMessage)) (f : String)
    (m : DiagnosticMessage) :
    m ∉ lookupPath (L.map
      (fun e => if e.1 = f then (e.1, e.2.filter (fun x => decide (x ≠ m))) else e)) f := by
  induction L with
  | nil => simp [lookupPath]
  | cons e rest ih =>
    by_cases h : e.1 = f
    · intro hmem
      rw [List.map_cons, if_pos h] at hmem
      unfold lookupPath at hmem
      rw [if_pos h] at hmem
      have := List.of_mem_filter hmem
      simp at this
    · intro hmem
      rw [List.map_cons, if_neg h] at hmem
      unfold lookupPath at hmem
      rw [if_neg h] at hmem
      exact ih hmem

/-! ### C7 — applyFix round trip -/

/-- C7: for a message carrying `fix = {oldRange, newText}`, `applyFix`
replaces the text at `oldRange` by `newText` in the buffer and afterwards
`getFileMessages` at the message's path no longer contains the message;
`applyFix` on a message without a fix changes nothing (a no-op, not an
error). -/
theorem applyFix_round_trip (buf : List String) (s : StoreState)
    (m : DiagnosticMessage) (fx : MessageFix) (f : String)
    (hfix : m.fix = some fx) (hpath : m.filePath = some f) :
    (applyFix m buf s).1 = setTextInRange buf fx.oldRange fx.newText
    ∧ m ∉ getFileMessages (applyFix m buf s).2 f
    ∧ (∀ m2 : DiagnosticMessage, m2.fix = none → applyFix m2 buf s = (buf, s)) := by
  refine ⟨?_, ?_, ?_⟩
  · unfold applyFix
    rw [hfix, hpath]
  · unfold applyFix
    rw [hfix, hpath]
    intro hmem
    unfold getFileMessages at hmem
    rcases List.mem_flatten.mp hmem with ⟨lst, hlst, hml⟩
    rcases List.mem_map.mp hlst with ⟨e, he, rfl⟩
    rcases List.mem_map.mp he with ⟨x, hx, rfl⟩
    exact not_mem_lookupPath_removeMessage x.2.filePathToMessages f m
      (by simpa [removeMessage] using hml)
  · intro m2 h2
    unfold applyFix
    rw [h2]

/-- Sample: the message with an autofix from `createStore-spec.js`
(`oldRange` `[0,0]`–`[0,1]`, `newText` FOO on `/tmp/fileA`). -/
def msgWithAutofix : DiagnosticMessage :=
  ⟨"dummyProviderA", .file, "Error", some "/tmp/fileA", none,
   some ⟨((0, 0), (0, 1)), "FOO"⟩⟩

/-- Sample store holding only the autofix message. -/
def stateAutofix : StoreState :=
  updateMessages 0 ⟨[("/tmp/fileA", [msgWithAutofix])], some []⟩ StoreState.empty

/-- C7 witness: on the file content `foobar`, applying the fix yields
`FOOoobar` and the message disappears from `getFileMessages`; a fixless
message is a no-op. -/
theorem applyFix_round_trip_witness :
    (applyFix msgWithAutofix ["foobar"] stateAutofix).1 = ["FOOoobar"]
    ∧ msgWithAutofix ∉
        getFileMessages (applyFix msgWithAutofix ["foobar"] stateAutofix).2 "/tmp/fileA"
    ∧ applyFix msgA1 ["foobar"] stateAutofix = (["foobar"], stateAutofix) := by
  have h := applyFix_round_trip ["foobar"] stateAutofix msgWithAutofix
    ⟨((0, 0), (0, 1)), "FOO"⟩ "/tmp/fileA" rfl rfl
  exact ⟨h.1.trans (by decide), h.2.1, h.2.2 msgA1 rfl⟩

/-! ### Definition cache, embedded from
`atom-ide-definitions/lib/DefinitionCache.js` -/

/-- `(row, col) ≤ (row, col)` in buffer order, as `atom$Point` comparison. -/
def posLE (a b : Nat × Nat) : Bool :=
  decide (a.1 < b.1) || (decide (a.1 = b.1) && decide (a.2 ≤ b.2))

/-- `isPositionInRange` of `nuclide-commons/range`: the position lies
between the range's start and end. -/
def isPositionInRange (pos : Nat × Nat) (r : TextRange) : Bool :=
  posLE r.1 pos && posLE pos r.2

/-- How the cached `_cachedResultPromise` eventually settles: fulfilled with
a result (possibly null), or rejected with an `AbortError`. -/
inductive CachedPromise where
  | resolved (result : Option Nat)
  | abortRejected
deriving DecidableEq, Repr

/-- The mutable fields of `DefinitionCache`: `_cachedResultEditor` (an
editor identity), `_cachedResultRange` and `_cachedResultPromise`. -/
structure DefinitionCacheState where
  cachedResultEditor : Option Nat
  cachedResultRange : Option TextRange
  cachedResultPromise : Option CachedPromise
deriving DecidableEq, Repr

/-- A `DefinitionCache` with nothing cached. -/
def DefinitionCacheState.initial : DefinitionCacheState := ⟨none, none, none⟩

/-- The cache-hit test of `DefinitionCache.get`: `_cachedResultRange` is
non-null, `_cachedResultEditor` is the same editor, and the position lies
in the cached range. -/
def cacheHit (st : DefinitionCacheState) (editor : Nat) (pos : Nat × Nat) :
    Bool :=
  match st.cachedResultRange, st.cachedResultEditor with
  | some r, some e => decide (e = editor) && isPositionInRange pos r
  | _, _ => false

/-- `invalidateAndStopListening` of `DefinitionCache.get`: nulls
`_cachedResultEditor` and `_cachedResultRange` (the promise field is left
in place, exactly as in the source). -/
def invalidateCache (st : DefinitionCacheState) : DefinitionCacheState :=
  { st with cachedResultEditor := none, cachedResultRange := none }

/-- The outcome `DefinitionCache.get` reports to its caller: a resolved
result (possibly null) or a thrown `AbortError`. -/
inductive GetOutcome where
  | ok (result : Option Nat)
  | abortError
deriving DecidableEq, Repr

/-- The fresh-query path of `DefinitionCache.get` (after the cache-hit
attempt): with the signal already aborted it throws `AbortError` caching
nothing; otherwise it registers the abort listener, stores the word range
and editor, runs `getImpl` and caches its promise — invalidating the cache
when the abort event fires in flight (`abortFired`) and when the query
resolves to null. `wordRange` models `wordAtPosition(...).range`, and
`implOutcome` how the `getImpl()` promise settles. -/
def DefinitionCache.getFresh (st : DefinitionCacheState) (editor : Nat)
    (wordRange : Option TextRange) (signalAborted : Bool) (abortFired : Bool)
    (implOutcome : CachedPromise) : GetOutcome × DefinitionCacheState :=
  if signalAborted then (.abortError, st)
  else
    let st1 : DefinitionCacheState :=
      { st with cachedResultRange := wordRange, cachedResultEditor := some editor }
    let st2 := if abortFired then invalidateCache st1 else st1
    match implOutcome with
    | .abortRejected =>
      (.abortError, { st2 with cachedResultPromise := some .abortRejected })
    | .resolved none =>
      (.ok none, { invalidateCache st2 with cachedResultPromise := some (.resolved none) })
    | .resolved (some r) =>
      (.ok (some r), { st2 with cachedResultPromise := some (.resolved (some r)) })

/-- `DefinitionCache.get`: on a cache hit whose promise fulfills, the cached
result is returned and nothing changes; a cached promise that was
abort-rejected falls through (the `AbortError` catch) to the fresh-query
path, as does a cache miss. -/
def DefinitionCache.get (st : DefinitionCacheState) (editor : Nat)
    (pos : Nat × Nat) (wordRange : Option TextRange) (signalAborted : Bool)
    (abortFired : Bool) (implOutcome : CachedPromise) :
    GetOutcome × DefinitionCacheState :=
  if cacheHit st editor pos then
    match st.cachedResultPromise with
    | some (.resolved r) => (.ok r, st)
    | some .abortRejected =>
      DefinitionCache.getFresh st editor wordRange signalAborted abortFired implOutcome
    | none => (.ok none, st)
  else
    DefinitionCache.getFresh st editor wordRange signalAborted abortFired implOutcome

/-! ### C8 — cancellation never mutates the cache -/

/-- C8: a `get` whose signal is already aborted (and that does not return a
previously cached promise) throws `AbortError` and leaves the cache state
exactly as it was — nothing is cached; and when the abort signal fires
while the query is in flight, the cache is invalidated: whatever the
provider later resolves, the resulting state holds no cached range, so no
later call can hit the cache. -/
theorem aborted_get_no_cache_write (st : DefinitionCacheState) (editor : Nat)
    (pos : Nat × Nat) (wordRange : Option TextRange)
    (implOutcome : CachedPromise) (hmiss : cacheHit st editor pos = false) :
    (∀ abortFired : Bool,
      DefinitionCache.get st editor pos wordRange true abortFired implOutcome =
        (.abortError, st))
    ∧ ((DefinitionCache.get st editor pos wordRange false true
        implOutcome).2.cachedResultRange = none
      ∧ ∀ (e2 : Nat) (p2 : Nat × Nat),
          cacheHit (DefinitionCache.get st editor pos wordRange false true
            implOutcome).2 e2 p2 = false) := by
  constructor
  · intro abortFired
    unfold DefinitionCache.get DefinitionCache.getFresh
    rw [if_neg (by simp [hmiss])]
    rfl
  · constructor
    · unfold DefinitionCache.get DefinitionCache.getFresh
      rw [if_neg (by simp [hmiss])]
      rcases implOutcome with r | _
      · rcases r with _ | r <;> rfl
      · rfl
    · intro e2 p2
      unfold DefinitionCache.get DefinitionCache.getFresh
      rw [if_neg (by simp [hmiss])]
      rcases implOutcome with r | _
      · rcases r with _ | r <;> rfl
      · rfl

/-- C8 witness: from the empty cache, a pre-aborted `get` throws and caches
nothing, and an abort during flight leaves no cached range even when the
provider resolves a definition. -/
theorem aborted_get_no_cache_write_witness :
    DefinitionCache.get DefinitionCacheState.initial 0 (0, 0)
      (some ((1, 1), (1, 5))) true false (.resolved (some 7)) =
      (.abortError, DefinitionCacheState.initial)
    ∧ (DefinitionCache.get DefinitionCacheState.initial 0 (0, 0)
        (some ((1, 1), (1, 5))) false true (.resolved (some 7))).2.cachedResultRange
        = none
    ∧ cacheHit (DefinitionCache.get DefinitionCacheState.initial 0 (0, 0)
        (some ((1, 1), (1, 5))) false true (.resolved (some 7))).2 0 (1, 2) = false := by
  have h := aborted_get_no_cache_write DefinitionCacheState.initial 0 (0, 0)
    (some ((1, 1), (1, 5))) (.resolved (some 7)) (by decide)
  exact ⟨h.1 false, h.2.1, h.2.2 0 (1, 2)⟩

/-! ### C10 — null results are never cached -/

/-- C10: a `get` whose underlying query resolves to null returns null but
invalidates the cache entry before returning: the resulting state holds no
cached range, no later call at any editor and position can hit the cache,
and a subsequent `get` at the same editor and position re-invokes the
underlying query and returns whatever it now resolves. -/
theorem null_result_not_cached (st : DefinitionCacheState) (editor : Nat)
    (pos : Nat × Nat) (wordRange : Option TextRange)
    (hmiss : cacheHit st editor pos = false) :
    (DefinitionCache.get st editor pos wordRange false false
      (.resolved none)).1 = .ok none
    ∧ (DefinitionCache.get st editor pos wordRange false false
        (.resolved none)).2.cachedResultRange = none
    ∧ (∀ (e2 : Nat) (p2 : Nat × Nat),
        cacheHit (DefinitionCache.get st editor pos wordRange false false
          (.resolved none)).2 e2 p2 = false)
    ∧ (∀ v : Option Nat,
        (DefinitionCache.get (DefinitionCache.get st editor pos wordRange
          false false (.resolved none)).2 editor pos wordRange false false
          (.resolved v)).1 = .ok v) := by
  have hstep : DefinitionCache.get st editor pos wordRange false false
      (.resolved none) =
      (.ok none, ⟨none, none, some (.resolved none)⟩) := by
    unfold DefinitionCache.get DefinitionCache.getFresh
    rw [if_neg (by simp [hmiss])]
    rfl
  refine ⟨by rw [hstep], by rw [hstep], ?_, ?_⟩
  · intro e2 p2
    rw [hstep]
    rfl
  · intro v
    rw [hstep]
    unfold DefinitionCache.get DefinitionCache.getFresh
    rw [if_neg (by simp [cacheHit, invalidateCache])]
    rcases v with _ | r <;> rfl

/-- C10 witness: from the empty cache, a null query result is returned but
not cached, and the repeated `get` re-queries and now returns the found
definition — the scenario of the `does not cache null values` test. -/
theorem null_result_not_cached_witness :
    (DefinitionCache.get DefinitionCacheState.initial 0 (0, 0)
      (some ((1, 1), (1, 5))) false false (.resolved none)).1 = .ok none
    ∧ cacheHit (DefinitionCache.get DefinitionCacheState.initial 0 (0, 0)
        (some ((1, 1), (1, 5))) false false (.resolved none)).2 0 (0, 0) = false
    ∧ (DefinitionCache.get (DefinitionCache.get DefinitionCacheState.initial 0
        (0, 0) (some ((1, 1), (1, 5))) false false (.resolved none)).2 0 (0, 0)
        (some ((1, 1), (1, 5))) false false (.resolved (some 7))).1 = .ok (some 7) := by
  have h := null_result_not_cached DefinitionCacheState.initial 0 (0, 0)
    (some ((1, 1), (1, 5))) (by decide)
  exact ⟨h.1, h.2.2.1 0 (0, 0), h.2.2.2 (some 7)⟩

/-! ### Definition provider selection -/

/-- Modelled from the spec: a registered definition provider as seen by the
consuming component (`DefinitionHyperclick` / the provider registry, not in
the source tree) — its priority, its supported grammar scopes, and the
result its `getDefinition` yields for the query under consideration
(`none` models both a null result and a rejected/error query). -/
structure DefinitionProvider where
  priority : Nat
  grammarScopes : List String
  result : Option Nat
deriving DecidableEq, Repr

/-- Higher-or-equal-priority ordering on providers. -/
def providerGE (a b : DefinitionProvider) : Prop := b.priority ≤ a.priority

instance : DecidableRel providerGE := fun a b => Nat.decLe b.priority a.priority

instance : IsTotal DefinitionProvider providerGE :=
  ⟨fun a b => le_total b.priority a.priority⟩

instance : IsTrans DefinitionProvider providerGE :=
  ⟨fun _ _ _ h1 h2 => le_trans h2 h1⟩

/-- The registered providers whose `grammarScopes` hold the current file's
grammar. -/
def applicableProviders (ps : List DefinitionProvider) (grammar : String) :
    List DefinitionProvider :=
  ps.filter (fun p => p.grammarScopes.contains grammar)

/-- Modelled from the spec: the consuming component queries the matching
providers from highest priority downwards and returns the first non-null
result — null when no matching provider yields one. -/
def queryProviders (ps : List DefinitionProvider) (grammar : String) :
    Option Nat :=
  (List.insertionSort providerGE (applicableProviders ps grammar)).findSome?
    (fun p => p.result)

/-! ### C9 — highest-priority provider with fallback -/

/-- C9: the query result is null exactly when every matching provider
yields none; otherwise the priority-sorted matching list starts with a
maximal-priority provider `h`: when `h` yields a result that result is
returned, and when `h` yields null the query falls back to the remaining
lower-priority matching providers. -/
theorem provider_priority_fallback (ps : List DefinitionProvider)
    (grammar : String) :
    ((∀ p ∈ applicableProviders ps grammar, p.result = none) →
      queryProviders ps grammar = none)
    ∧ (∀ (h : DefinitionProvider) (t : List DefinitionProvider),
        List.insertionSort providerGE (applicableProviders ps grammar) = h :: t →
        (∀ p ∈ applicableProviders ps grammar, p.priority ≤ h.priority)
        ∧ (∀ r, h.result = some r → queryProviders ps grammar = some r)
        ∧ (h.result = none →
            queryProviders ps grammar = t.findSome? (fun p => p.result))) := by
  constructor
  · intro hall
    unfold queryProviders
    rw [List.findSome?_eq_none_iff]
    intro x hx
    exact hall x ((List.perm_insertionSort providerGE _).subset hx)
  · intro h t hsort
    have hsorted := List.sorted_insertionSort providerGE
      (applicableProviders ps grammar)
    rw [hsort, List.sorted_cons] at hsorted
    refine ⟨?_, ?_, ?_⟩
    · intro p hp
      have hmem : p ∈ h :: t := by
        rw [← hsort]
        exact ((List.perm_insertionSort providerGE _).symm.subset hp)
      rcases List.mem_cons.mp hmem with rfl | hmem2
      · exact le_refl _
      · exact hsorted.1 p hmem2
    · intro r hr
      unfold queryProviders
      rw [hsort, List.findSome?_cons, hr]
    · intro hnone
      unfold queryProviders
      rw [hsort, List.findSome?_cons, hnone]

/-- Sample provider: priority 20, matching, but yielding no definition. -/
def providerTop : DefinitionProvider := ⟨20, ["text.plain.null-grammar"], none⟩

/-- Sample provider: priority 10, matching, yielding a definition. -/
def providerLow : DefinitionProvider :=
  ⟨10, ["text.plain.null-grammar"], some 5⟩

/-- Sample provider: priority 30 but for another grammar. -/
def providerOther : DefinitionProvider := ⟨30, ["source.js"], some 9⟩

/-- The sample provider registry. -/
def providersW : List DefinitionProvider :=
  [providerTop, providerLow, providerOther]

/-- C9 witness: with a matching priority-20 provider returning null, a
matching priority-10 provider returning a definition, and a higher-priority
provider for another grammar, the query falls back to the priority-10
result; with only the null-returning provider registered, it is null. -/
theorem provider_priority_fallback_witness :
    queryProviders providersW "text.plain.null-grammar" = some 5
    ∧ queryProviders [providerTop] "text.plain.null-grammar" = none := by
  have h := provider_priority_fallback providersW "text.plain.null-grammar"
  have h1 := (h.2 providerTop [providerLow] (by decide)).2.2 (by decide)
  have h2 := (provider_priority_fallback [providerTop]
    "text.plain.null-grammar").1 (by decide)
  exact ⟨h1.trans (by decide), h2⟩
